import Mathlib

set_option maxRecDepth 10000

/-!
Verification of the GSM AT-command protocol engine described by the
repository's `GSM_Module.hpp` header and its specification.

The repository ships only the class declaration (`GSM_Module.hpp`); the
method bodies are not part of the sources.  Constants that do appear in the
header (the receive buffer `uint8_t rx_buffer[256]`, the end-of-message
sentinel `END_OF_MSG = 0x1A`, the AT command strings, the in-class
initializers of `prev_state`, `current_state`, `signal`) are embedded
directly from the header; behaviour that only the specification describes
(framing, parsing, dispatching, the state machine, the timeout wait) is
modelled from the spec, as marked in the doc comments.
-/

/-- From the header: `const char END_OF_MSG = 0x1A`, the end-of-message
sentinel byte that terminates an SMS body. -/
def END_OF_MSG : Char := Char.ofNat 26

/-- From the header: `uint8_t rx_buffer[256]` — the fixed capacity of the
receive buffer. -/
def RX_CAPACITY : Nat := 256

/-- Modelled from the spec: a byte completes a frame when it is the
end-of-message sentinel `0x1A` or the configured line terminator (the AT
protocol ends every line with CR LF, so the frame closes on the final
newline byte). -/
def isTerminator (c : Char) : Bool := c == '\n' || c == END_OF_MSG

/-- A completed frame: the accumulated bytes and whether the frame was
force-completed because the buffer reached capacity (truncated). -/
structure Frame where
  bytes : List Char
  truncated : Bool
deriving DecidableEq, Repr

/-- Modelled from the spec: the body of `handle_interruption` is not in the
header.  `on_byte_received buf c` appends the byte to the receive buffer;
the frame completes when the byte is a terminator, or when the buffer
reaches `RX_CAPACITY` (overflow — force-completed and flagged truncated);
on completion the buffer resets to empty. -/
def on_byte_received (buf : List Char) (c : Char) : List Char × Option Frame :=
  let buf2 := buf ++ [c]
  if isTerminator c then ([], some ⟨buf2, false⟩)
  else if RX_CAPACITY ≤ buf2.length then ([], some ⟨buf2, true⟩)
  else (buf2, none)

/-- Feed a byte sequence one byte at a time through `on_byte_received`,
collecting the completed frames and the residual buffer contents. -/
def feedAll : List Char → List Char → List Frame × List Char
  | buf, [] => ([], buf)
  | buf, c :: rest =>
    match on_byte_received buf c with
    | (buf2, some f) => ((feedAll buf2 rest).1.cons f, (feedAll buf2 rest).2)
    | (buf2, none) => feedAll buf2 rest

/-- Concatenation of the bytes of a list of frames. -/
def joinFrames (fs : List Frame) : List Char := (fs.map Frame.bytes).join

/-- No byte of the list is a frame terminator. -/
def noTerminators (l : List Char) : Bool := l.all (fun c => !(isTerminator c))

/-- A frame is well formed: a truncated frame holds exactly `RX_CAPACITY`
non-terminator bytes; a completed frame is a run of non-terminator bytes
closed by exactly one terminator, so frame boundaries sit exactly at
terminator positions. -/
def goodFrame (f : Frame) : Prop :=
  match f.truncated with
  | true => f.bytes.length = RX_CAPACITY ∧ noTerminators f.bytes = true
  | false =>
      ∃ body term, f.bytes = body ++ [term] ∧
        noTerminators body = true ∧ isTerminator term = true

theorem on_byte_term {buf : List Char} {c : Char} (h : isTerminator c = true) :
    on_byte_received buf c = ([], some ⟨buf ++ [c], false⟩) := by
  simp [on_byte_received, h]

theorem on_byte_over {buf : List Char} {c : Char} (h1 : isTerminator c = false)
    (h2 : RX_CAPACITY ≤ (buf ++ [c]).length) :
    on_byte_received buf c = ([], some ⟨buf ++ [c], true⟩) := by
  have h2' : RX_CAPACITY ≤ buf.length + 1 := by simpa using h2
  simp [on_byte_received, h1, h2']

theorem on_byte_acc {buf : List Char} {c : Char} (h1 : isTerminator c = false)
    (h2 : (buf ++ [c]).length < RX_CAPACITY) :
    on_byte_received buf c = (buf ++ [c], none) := by
  have h2' : buf.length + 1 < RX_CAPACITY := by simpa using h2
  simp [on_byte_received, h1, Nat.not_le.mpr h2']

theorem feedAll_cons_term {buf : List Char} {c : Char} (rest : List Char)
    (h : isTerminator c = true) :
    feedAll buf (c :: rest) =
      ((feedAll [] rest).1.cons ⟨buf ++ [c], false⟩, (feedAll [] rest).2) := by
  simp [feedAll, on_byte_term h]

theorem feedAll_cons_over {buf : List Char} {c : Char} (rest : List Char)
    (h1 : isTerminator c = false) (h2 : RX_CAPACITY ≤ (buf ++ [c]).length) :
    feedAll buf (c :: rest) =
      ((feedAll [] rest).1.cons ⟨buf ++ [c], true⟩, (feedAll [] rest).2) := by
  simp [feedAll, on_byte_over h1 h2]

theorem feedAll_cons_acc {buf : List Char} {c : Char} (rest : List Char)
    (h1 : isTerminator c = false) (h2 : (buf ++ [c]).length < RX_CAPACITY) :
    feedAll buf (c :: rest) = feedAll (buf ++ [c]) rest := by
  simp [feedAll, on_byte_acc h1 h2]

theorem joinFrames_cons (f : Frame) (fs : List Frame) :
    joinFrames (fs.cons f) = f.bytes ++ joinFrames fs := by
  simp [joinFrames]

/-- Accounting: the concatenation of all completed frames followed by the
residual buffer equals the initial buffer contents followed by the input. -/
theorem feedAll_accounting (input : List Char) : ∀ buf : List Char,
    joinFrames (feedAll buf input).1 ++ (feedAll buf input).2 = buf ++ input := by
  induction input with
  | nil => intro buf; simp [feedAll, joinFrames]
  | cons c rest ih =>
    intro buf
    by_cases h1 : isTerminator c
    · rw [feedAll_cons_term rest h1]
      simp only [joinFrames_cons, List.append_assoc, ih []]
      simp
    · by_cases h2 : RX_CAPACITY ≤ (buf ++ [c]).length
      · rw [feedAll_cons_over rest (Bool.eq_false_iff.mpr h1) h2]
        simp only [joinFrames_cons, List.append_assoc, ih []]
        simp
      · rw [feedAll_cons_acc rest (Bool.eq_false_iff.mpr h1) (Nat.not_le.mp h2)]
        rw [ih (buf ++ [c])]
        simp

/-- Every frame produced from a buffer that holds no terminators and is
below capacity is well formed. -/
theorem feedAll_frames_good (input : List Char) : ∀ buf : List Char,
    noTerminators buf = true → buf.length < RX_CAPACITY →
    ∀ f ∈ (feedAll buf input).1, goodFrame f := by
  induction input with
  | nil => intro buf _ _ f hf; simp [feedAll] at hf
  | cons c rest ih =>
    intro buf hnt hlen f hf
    by_cases h1 : isTerminator c
    · rw [feedAll_cons_term rest h1] at hf
      rcases List.mem_cons.mp hf with hEq | hMem
      · subst hEq
        exact ⟨buf, c, rfl, hnt, h1⟩
      · exact ih [] rfl (by simp [RX_CAPACITY]) f hMem
    · have h1' : isTerminator c = false := Bool.eq_false_iff.mpr h1
      by_cases h2 : RX_CAPACITY ≤ (buf ++ [c]).length
      · rw [feedAll_cons_over rest h1' h2] at hf
        rcases List.mem_cons.mp hf with hEq | hMem
        · subst hEq
          refine ⟨Nat.le_antisymm ?_ h2, ?_⟩
          · simpa using hlen
          · simp only [noTerminators, List.all_append, List.all_cons,
              List.all_nil, Bool.and_true, Bool.and_eq_true] at hnt ⊢
            exact ⟨hnt, by simp [h1']⟩
        · exact ih [] rfl (by simp [RX_CAPACITY]) f hMem
      · rw [feedAll_cons_acc rest h1' (Nat.not_le.mp h2)] at hf
        refine ih (buf ++ [c]) ?_ (Nat.not_le.mp h2) f hf
        simp only [noTerminators, List.all_append, List.all_cons,
          List.all_nil, Bool.and_true, Bool.and_eq_true] at hnt ⊢
        exact ⟨hnt, by simp [h1']⟩

/-- C3: for every byte sequence delivered one byte at a time to the Receive
Framer via `on_byte_received`, the concatenation of the bytes across all
completed frames followed by the residual buffer equals the input (no byte
duplicated or dropped); when the input ends at a frame boundary the frames
alone concatenate to the input; and every frame sits exactly at terminator
positions: a non-truncated frame is a run of non-terminator bytes closed by
one terminator, a truncated frame holds exactly the capacity of
non-terminator bytes. -/
theorem framing_correct (input : List Char) :
    joinFrames (feedAll [] input).1 ++ (feedAll [] input).2 = input ∧
    ((feedAll [] input).2 = [] → joinFrames (feedAll [] input).1 = input) ∧
    ∀ f ∈ (feedAll [] input).1, goodFrame f := by
  refine ⟨feedAll_accounting input [], ?_, ?_⟩
  · intro hres
    have h := feedAll_accounting input []
    rw [hres] at h
    simpa using h
  · exact feedAll_frames_good input [] rfl (by simp [RX_CAPACITY])

/-- Witness for C3 at the concrete input `"AB\nC"`: two bytes, a
terminator, then one residual byte. -/
theorem framing_correct_witness :
    joinFrames (feedAll [] ("AB\nC".data)).1 ++ (feedAll [] ("AB\nC".data)).2
        = "AB\nC".data ∧
    ((feedAll [] ("AB\nC".data)).2 = [] →
      joinFrames (feedAll [] ("AB\nC".data)).1 = "AB\nC".data) ∧
    ∀ f ∈ (feedAll [] ("AB\nC".data)).1, goodFrame f :=
  framing_correct ("AB\nC".data)

/-- Feeding a concatenation processes the first part, then the second from
the buffer the first part leaves behind. -/
theorem feedAll_append (xs : List Char) : ∀ (buf : List Char) (ys : List Char),
    feedAll buf (xs ++ ys) =
      ((feedAll buf xs).1 ++ (feedAll (feedAll buf xs).2 ys).1,
       (feedAll (feedAll buf xs).2 ys).2) := by
  induction xs with
  | nil => intro buf ys; simp [feedAll]
  | cons c rest ih =>
    intro buf ys
    by_cases h1 : isTerminator c
    · rw [List.cons_append, feedAll_cons_term (rest ++ ys) h1,
        feedAll_cons_term rest h1, ih [] ys]
      simp
    · have h1' : isTerminator c = false := Bool.eq_false_iff.mpr h1
      by_cases h2 : RX_CAPACITY ≤ (buf ++ [c]).length
      · rw [List.cons_append, feedAll_cons_over (rest ++ ys) h1' h2,
          feedAll_cons_over rest h1' h2, ih [] ys]
        simp
      · rw [List.cons_append, feedAll_cons_acc (rest ++ ys) h1' (Nat.not_le.mp h2),
          feedAll_cons_acc rest h1' (Nat.not_le.mp h2), ih (buf ++ [c]) ys]

/-- Feeding a run of non-terminator bytes that exactly fills the remaining
buffer capacity produces a single truncated frame and an empty buffer. -/
theorem feedAll_overflow (a : List Char) : ∀ buf : List Char, a ≠ [] →
    noTerminators (buf ++ a) = true → (buf ++ a).length = RX_CAPACITY →
    feedAll buf a = ([⟨buf ++ a, true⟩], []) := by
  induction a with
  | nil => intro buf hne _ _; exact absurd rfl hne
  | cons c rest ih =>
    intro buf _ hnt hlen
    have hc : isTerminator c = false := by
      simp only [noTerminators, List.all_append, List.all_cons,
        Bool.and_eq_true] at hnt
      simpa using hnt.2.1
    cases rest with
    | nil =>
      have hcap : RX_CAPACITY ≤ (buf ++ [c]).length := by
        simp only [List.length_append, List.length_cons, List.length_nil] at hlen ⊢
        omega
      rw [feedAll_cons_over [] hc hcap]
      rfl
    | cons d rest2 =>
      have hlt : (buf ++ [c]).length < RX_CAPACITY := by
        simp only [List.length_append, List.length_cons, List.length_nil] at hlen ⊢
        omega
      rw [feedAll_cons_acc (d :: rest2) hc hlt]
      have := ih (buf ++ [c]) (by simp)
        (by simpa using hnt) (by simpa using hlen)
      simpa using this

/-- C4: feeding `RX_CAPACITY` non-terminator bytes (more than the buffer can
hold before force-completion) followed by any further bytes produces first a
frame flagged truncated holding exactly those bytes, with the buffer reset,
and the remaining input is then framed exactly as if fed to a fresh framer —
overflow never corrupts the following frame. -/
theorem overflow_safety (a b : List Char) (h1 : noTerminators a = true)
    (h2 : a.length = RX_CAPACITY) :
    feedAll [] (a ++ b) =
      ((feedAll [] b).1.cons ⟨a, true⟩, (feedAll [] b).2) := by
  have hne : a ≠ [] := by
    intro h
    rw [h] at h2
    simp [RX_CAPACITY] at h2
  have hover : feedAll [] a = ([⟨a, true⟩], []) := by
    have := feedAll_overflow a [] hne (by simpa using h1) (by simpa using h2)
    simpa using this
  rw [feedAll_append a [] b, hover]
  simp

/-- Witness for C4: 256 copies of `A` (no terminator, exactly the buffer
capacity) followed by the well-formed frame `"B\n"`. -/
theorem overflow_safety_witness :
    noTerminators (List.replicate 256 'A') = true ∧
    (List.replicate 256 'A').length = RX_CAPACITY ∧
    feedAll [] (List.replicate 256 'A' ++ "B\n".data) =
      ((feedAll [] ("B\n".data)).1.cons ⟨List.replicate 256 'A', true⟩,
       (feedAll [] ("B\n".data)).2) :=
  ⟨by decide, by decide,
   overflow_safety (List.replicate 256 'A') ("B\n".data) (by decide) (by decide)⟩

/-- From the header: `enum State` of `GSM_Module`. -/
inductive State where
  | IDLE
  | CALLING
  | RECEIVE_CALL
  | RINGING
  | HANG_UP
  | SEND_SMS
  | RECEIVE_SMS
  | UNKNOWN
deriving DecidableEq, Repr

/-- Modelled from the spec: the events driving the Device State Machine —
command completions, the automatic return from `HANG_UP`, unsolicited
notifications, and SMS progress; the header only declares the states. -/
inductive Event where
  | makeCallSuccess
  | hangUpSuccess
  | autoReturn
  | receiveCallSuccess
  | incomingCallNotif
  | incomingSmsNotif
  | smsSendStart
  | smsSendComplete
  | smsProcessed
  | unexpectedNotif
deriving DecidableEq, Repr

/-- Modelled from the spec: the Device State Machine transition table of
§4.4; `none` means the event does not cause a transition in that state. -/
def step : State → Event → Option State
  | .IDLE, .makeCallSuccess => some .CALLING
  | .IDLE, .incomingCallNotif => some .RINGING
  | .RINGING, .receiveCallSuccess => some .RECEIVE_CALL
  | .CALLING, .hangUpSuccess => some .HANG_UP
  | .RECEIVE_CALL, .hangUpSuccess => some .HANG_UP
  | .HANG_UP, .autoReturn => some .IDLE
  | .IDLE, .smsSendStart => some .SEND_SMS
  | .SEND_SMS, .smsSendComplete => some .IDLE
  | .IDLE, .incomingSmsNotif => some .RECEIVE_SMS
  | .RECEIVE_SMS, .smsProcessed => some .IDLE
  | _, .unexpectedNotif => some .UNKNOWN
  | _, _ => none

/-- The state pair the header stores: `current_state` and `prev_state`. -/
structure DeviceSM where
  current : State
  prev : State
deriving DecidableEq, Repr

/-- From the header's in-class initializers:
`State prev_state = IDLE; State current_state = IDLE;`. -/
def DeviceSM.init : DeviceSM := ⟨State.IDLE, State.IDLE⟩

/-- Modelled from the spec: applying an event takes the transition of
`step` when one exists, recording the outgoing state in `prev`; otherwise
the machine is unchanged. -/
def DeviceSM.apply (m : DeviceSM) (e : Event) : DeviceSM :=
  match step m.current e with
  | some s2 => ⟨s2, m.current⟩
  | none => m

/-- C5: the transition table takes exactly the claimed transitions — from
`IDLE` a successful `make_call` yields `CALLING`; from `CALLING` a
successful `hang_up` yields `HANG_UP`, and the automatic step then yields
`IDLE`; an incoming-call notification in `IDLE` yields `RINGING`. -/
theorem state_transitions :
    step State.IDLE Event.makeCallSuccess = some State.CALLING ∧
    step State.CALLING Event.hangUpSuccess = some State.HANG_UP ∧
    step State.HANG_UP Event.autoReturn = some State.IDLE ∧
    step State.IDLE Event.incomingCallNotif = some State.RINGING := by
  decide

/-- C6: at construction both `current_state` and `prev_state` are `IDLE`,
and every applied event either performs a transition and leaves `prev`
holding the state the machine was in immediately before it, or leaves the
machine entirely unchanged. -/
theorem prev_state_tracking :
    DeviceSM.init.current = State.IDLE ∧ DeviceSM.init.prev = State.IDLE ∧
    ∀ (m : DeviceSM) (e : Event),
      (DeviceSM.apply m e).prev = m.current ∨ DeviceSM.apply m e = m := by
  refine ⟨rfl, rfl, ?_⟩
  intro m e
  unfold DeviceSM.apply
  cases h : step m.current e with
  | some s2 => left; rfl
  | none => right; rfl

/-- The kinds of AT commands the public operations dispatch. -/
inductive CmdKind where
  | liveness
  | sendSms
  | makeCall
  | hangUp
  | getSignal
  | getDate
deriving DecidableEq, Repr

/-- The Command Dispatcher state: the single `PendingCommand` slot and the
log of every byte handed to the transport for transmission. -/
structure Dispatcher where
  pending : Option CmdKind
  txLog : List Char
deriving DecidableEq, Repr

/-- Modelled from the spec: the body of `send_at_command` is not in the
header.  Per §4.3 it fails fast, touching nothing, when a command is
already pending; otherwise it records the `PendingCommand` and transmits
the command bytes via the transport. -/
def send_at_command (d : Dispatcher) (k : CmdKind) (bytes : List Char) :
    Dispatcher × Bool :=
  match d.pending with
  | some _ => (d, false)
  | none => (⟨some k, d.txLog ++ bytes⟩, true)

/-- `send_sms`, dispatching the header's `AT+CMGS=` command followed by the
message body and the `END_OF_MSG` sentinel. -/
def send_sms (d : Dispatcher) (number message : String) : Dispatcher × Bool :=
  send_at_command d CmdKind.sendSms
    (("AT+CMGS=\"" ++ number ++ "\"\r\n" ++ message).data ++ [END_OF_MSG])

/-- `make_call`, dispatching the header's `ATD+` command. -/
def make_call (d : Dispatcher) (number : String) : Dispatcher × Bool :=
  send_at_command d CmdKind.makeCall (("ATD+" ++ number ++ ";\r\n").data)

/-- `hang_up`, dispatching the hang-up command. -/
def hang_up (d : Dispatcher) : Dispatcher × Bool :=
  send_at_command d CmdKind.hangUp ("ATH\r\n".data)

/-- `get_signal_strength`, dispatching the header's `AT+CSQ\r\n` command. -/
def get_signal_strength (d : Dispatcher) : Dispatcher × Bool :=
  send_at_command d CmdKind.getSignal ("AT+CSQ\r\n".data)

/-- `get_date`, dispatching the header's `AT+CCLK?\r\n` command. -/
def get_date (d : Dispatcher) : Dispatcher × Bool :=
  send_at_command d CmdKind.getDate ("AT+CCLK?\r\n".data)

/-- C1: whenever the single `PendingCommand` slot is occupied, every public
operation — `send_sms`, `make_call`, `hang_up`, `get_signal_strength`,
`get_date` — fails immediately and leaves the dispatcher (in particular its
transmit log) unchanged: no byte reaches the transport. -/
theorem single_outstanding (d : Dispatcher) (h : d.pending.isSome = true) :
    (∀ n m, send_sms d n m = (d, false)) ∧
    (∀ n, make_call d n = (d, false)) ∧
    hang_up d = (d, false) ∧
    get_signal_strength d = (d, false) ∧
    get_date d = (d, false) := by
  obtain ⟨k, hk⟩ := Option.isSome_iff_exists.mp h
  refine ⟨fun n m => ?_, fun n => ?_, ?_, ?_, ?_⟩ <;>
    simp [send_sms, make_call, hang_up, get_signal_strength, get_date,
      send_at_command, hk]

/-- Witness for C1: with a liveness check pending, `hang_up` and
`make_call` fail and transmit nothing. -/
theorem single_outstanding_witness :
    (Dispatcher.mk (some CmdKind.liveness) []).pending.isSome = true ∧
    hang_up ⟨some CmdKind.liveness, []⟩ = (⟨some CmdKind.liveness, []⟩, false) ∧
    make_call ⟨some CmdKind.liveness, []⟩ "123" =
      (⟨some CmdKind.liveness, []⟩, false) :=
  ⟨by decide,
   (single_outstanding ⟨some CmdKind.liveness, []⟩ (by decide)).2.2.1,
   (single_outstanding ⟨some CmdKind.liveness, []⟩ (by decide)).2.1 "123"⟩

/-- The return types that occur in the `GSM_Module` class declaration. -/
inductive CppRet where
  | voidTy
  | boolTy
  | intTy
  | stringPairTy
deriving DecidableEq, Repr

/-- From the header, the declared return type of each method of
`GSM_Module`, exactly as written in `GSM_Module.hpp`. -/
def headerSignatures : List (String × CppRet) :=
  [("send_sms", CppRet.voidTy),
   ("make_call", CppRet.voidTy),
   ("hang_up", CppRet.voidTy),
   ("receive_call", CppRet.voidTy),
   ("receive_sms", CppRet.voidTy),
   ("transmit", CppRet.boolTy),
   ("receive", CppRet.boolTy),
   ("start_receiving", CppRet.voidTy),
   ("get_signal_strength", CppRet.intTy),
   ("get_date", CppRet.stringPairTy),
   ("receive_signal_strength", CppRet.voidTy),
   ("receive_date_and_time", CppRet.voidTy),
   ("send_at_command", CppRet.boolTy),
   ("read_sms", CppRet.voidTy),
   ("handle_interruption", CppRet.voidTy)]

/-- The declared return type of a `GSM_Module` method, looked up in the
header's signature table. -/
def declaredReturn (n : String) : Option CppRet :=
  (headerSignatures.find? (fun p => p.1 == n)).map (fun p => p.2)

/-- A method reports success-or-failure to its caller exactly when its
declared return type is `bool`. -/
def returnsSuccessIndication (n : String) : Prop :=
  declaredReturn n = some CppRet.boolTy

/-- Counterexample to C2: in the header, `send_sms`, `make_call` and
`hang_up` are all declared `void`, so none of them returns a
success-or-failure indication to its caller. -/
theorem public_ops_no_success_counterexample :
    ¬ (returnsSuccessIndication "send_sms" ∧
       returnsSuccessIndication "make_call" ∧
       returnsSuccessIndication "hang_up") := by
  simp only [returnsSuccessIndication]
  decide

/-- C2 amended: `send_sms`, `make_call` and `hang_up` are declared with
return type `void` and return no success indication; only the internal
`send_at_command` and the transport operations `transmit` and `receive`
return a boolean success-or-failure indication. -/
theorem public_ops_declared_void :
    declaredReturn "send_sms" = some CppRet.voidTy ∧
    declaredReturn "make_call" = some CppRet.voidTy ∧
    declaredReturn "hang_up" = some CppRet.voidTy ∧
    declaredReturn "send_at_command" = some CppRet.boolTy ∧
    declaredReturn "transmit" = some CppRet.boolTy ∧
    declaredReturn "receive" = some CppRet.boolTy := by
  decide

/-- Strip the trailing framing bytes (CR, LF, the end-of-message sentinel)
from a completed frame, leaving the payload line. -/
def stripTerminators (l : List Char) : List Char :=
  (l.reverse.dropWhile (fun c => c == '\r' || c == '\n' || c == END_OF_MSG)).reverse

/-- Numeric value of a run of decimal digit characters. -/
def digitsToNat (l : List Char) : Nat :=
  l.foldl (fun acc c => acc * 10 + (c.toNat - 48)) 0

/-- Modelled from the spec: the `+CSQ: <rssi>,<ber>` reply — the integer
between the colon-space and the comma is the RSSI. -/
def parseCsq (core : List Char) : Nat :=
  digitsToNat (((core.drop 5).dropWhile (fun c => c == ' ')).takeWhile Char.isDigit)

/-- Modelled from the spec: the `+CCLK: "<date>,<time>"` reply — the quoted
string splits at its comma into the date and the time substrings. -/
def parseCclk (core : List Char) : String × String :=
  let inner := (((core.dropWhile (fun c => !(c == '"'))).drop 1).takeWhile
    (fun c => !(c == '"')))
  (String.mk (inner.takeWhile (fun c => !(c == ','))),
   String.mk (((inner.dropWhile (fun c => !(c == ','))).drop 1)))

/-- Modelled from the spec: the `+CMTI: "<mem>",<index>` unsolicited
notification — the trailing digits are the message index. -/
def parseCmti (core : List Char) : Nat :=
  digitsToNat ((core.reverse.takeWhile Char.isDigit).reverse)

/-- The spec's `ParsedResponse` tagged variant. -/
inductive ParsedResponse where
  | finalResult (success : Bool)
  | signalQuality (rssi : Nat)
  | clockValue (date : String) (time : String)
  | incomingCall
  | incomingSms (index : Nat)
  | unrecognized
deriving DecidableEq, Repr

/-- Modelled from the spec: the Response Parser classifies a completed
frame by its trailing final result code or its known prefixes (§4.2);
anything else is `Unrecognized` and never an error. -/
def classify (frame : List Char) : ParsedResponse :=
  let core := stripTerminators frame
  if "OK".data.isSuffixOf core then .finalResult true
  else if "ERROR".data.isSuffixOf core then .finalResult false
  else if "+CSQ:".data.isPrefixOf core then .signalQuality (parseCsq core)
  else if "+CCLK:".data.isPrefixOf core then
    .clockValue (parseCclk core).1 (parseCclk core).2
  else if "RING".data.isPrefixOf core then .incomingCall
  else if "+CMTI:".data.isPrefixOf core then .incomingSms (parseCmti core)
  else .unrecognized

/-- The protocol engine's shared state: the receive buffer, the
`PendingCommand` slot with its completion slot, the cached telemetry the
header stores (`int signal = 0; std::string time; std::string date;`), and
the device state machine. -/
structure Engine where
  rxBuf : List Char
  pending : Option CmdKind
  result : Option Bool
  signal : Int
  date : String
  time : String
  sm : DeviceSM
deriving DecidableEq, Repr

/-- From the header's in-class initializers: `signal` starts at `0`, the
`date` and `time` strings default-construct empty, the receive index at
`0`, the state machine at `IDLE`, and no command is pending. -/
def Engine.init : Engine :=
  ⟨[], none, none, 0, "", "", DeviceSM.init⟩

/-- Modelled from the spec: the handler the header declares as
`void receive_signal_strength(std::string buffer)` — caches the RSSI
decoded from the `+CSQ` reply into `signal`. -/
def receive_signal_strength (e : Engine) (buffer : List Char) : Engine :=
  { e with signal := (parseCsq (stripTerminators buffer) : Int) }

/-- Modelled from the spec: the handler the header declares as
`void receive_date_and_time(std::string buffer)` — caches the date and time
substrings of the `+CCLK` reply. -/
def receive_date_and_time (e : Engine) (buffer : List Char) : Engine :=
  { e with date := (parseCclk (stripTerminators buffer)).1,
           time := (parseCclk (stripTerminators buffer)).2 }

/-- The state-machine event a successfully completed command raises. -/
def completionEvent : CmdKind → Option Event
  | .makeCall => some Event.makeCallSuccess
  | .hangUp => some Event.hangUpSuccess
  | _ => none

/-- Modelled from the spec: dispatch of one completed frame — a final
result resolves the pending command's completion slot and signals the state
machine; data payloads update the cached telemetry; notifications drive the
state machine; unrecognized frames are ignored. -/
def handle_frame (e : Engine) (frame : List Char) : Engine :=
  match classify frame with
  | .finalResult s =>
      match e.pending with
      | some k =>
          let sm2 :=
            if s then
              (match completionEvent k with
               | some ev => e.sm.apply ev
               | none => e.sm)
            else e.sm
          { e with pending := none, result := some s, sm := sm2 }
      | none => e
  | .signalQuality _ => receive_signal_strength e frame
  | .clockValue _ _ => receive_date_and_time e frame
  | .incomingCall => { e with sm := e.sm.apply Event.incomingCallNotif }
  | .incomingSms _ => { e with sm := e.sm.apply Event.incomingSmsNotif }
  | .unrecognized => e

/-- One byte of the interrupt path: accumulate through `on_byte_received`
and hand any completed frame to the Response Parser. -/
def engineByte (e : Engine) (c : Char) : Engine :=
  match on_byte_received e.rxBuf c with
  | (buf2, some f) => handle_frame { e with rxBuf := buf2 } f.bytes
  | (buf2, none) => { e with rxBuf := buf2 }

/-- Deliver a byte sequence one byte at a time to the engine. -/
def engineFeed (e : Engine) (input : List Char) : Engine :=
  input.foldl engineByte e

/-- The engine state with `get_signal_strength()` recorded as the pending
command, fed the reply `"+CSQ: 18,99\r\nOK\r\n"`. -/
def csqScenario : Engine :=
  engineFeed { Engine.init with pending := some CmdKind.getSignal }
    ("+CSQ: 18,99\r\nOK\r\n".data)

/-- C7: feeding `"+CSQ: 18,99\r\nOK\r\n"` while `get_signal_strength()` is
pending caches signal value 18 (the RSSI decoded from `18`), resolves the
pending command with success, and clears the pending slot. -/
theorem csq_roundtrip :
    csqScenario.signal = 18 ∧ csqScenario.result = some true ∧
    csqScenario.pending = none := by
  decide

/-- The engine state with `get_date()` recorded as the pending command, fed
the reply `"+CCLK: \"24/11/02,10:15:00+08\"\r\n OK\r\n"`. -/
def cclkScenario : Engine :=
  engineFeed { Engine.init with pending := some CmdKind.getDate }
    ("+CCLK: \"24/11/02,10:15:00+08\"\r\n OK\r\n".data)

/-- C8: feeding `"+CCLK: \"24/11/02,10:15:00+08\"\r\n OK\r\n"` while
`get_date()` is pending caches date substring `"24/11/02"` and time
substring `"10:15:00+08"` (the pair `get_date()` returns), and resolves the
command with success. -/
theorem cclk_roundtrip :
    cclkScenario.date = "24/11/02" ∧ cclkScenario.time = "10:15:00+08" ∧
    cclkScenario.result = some true ∧ cclkScenario.pending = none := by
  decide

/-- C10: immediately after construction, before any query completes, the
cached telemetry holds signal value `0` and empty date and time strings —
exactly what a caller reading the cache before the first successful query
observes. -/
theorem initial_telemetry :
    Engine.init.signal = 0 ∧ Engine.init.date = "" ∧ Engine.init.time = "" := by
  decide

/-- How a dispatched command resolves. -/
inductive CmdOutcome where
  | ok
  | fail
  | timeout
deriving DecidableEq, Repr

/-- Modelled from the spec: the blocking wait of `send_at_command` when no
matching final result is ever received.  The waiting context re-checks the
deadline once per frame-processing interval: at each check time `now` it
fails with `Timeout` exactly when the deadline has elapsed, otherwise it
waits one more interval.  `fuel` bounds the number of checks so the wait is
a total function. -/
def await_reply : Nat → Nat → Nat → Nat → Option (CmdOutcome × Nat)
  | 0, _, _, _ => none
  | fuel + 1, now, deadline, interval =>
    if deadline ≤ now then some (CmdOutcome.timeout, now)
    else await_reply fuel (now + interval) deadline interval

/-- The wait fires with `Timeout` at a time between the deadline and the
deadline plus one interval, from any check time at or before the
deadline. -/
theorem await_reply_fires (interval : Nat) (hI : 0 < interval) :
    ∀ (fuel now deadline : Nat), now ≤ deadline →
      deadline ≤ now + fuel * interval →
      ∃ t, await_reply (fuel + 1) now deadline interval =
          some (CmdOutcome.timeout, t) ∧
        deadline ≤ t ∧ t ≤ deadline + interval := by
  intro fuel
  induction fuel with
  | zero =>
    intro now deadline hle hfuel
    have hnow : now = deadline := Nat.le_antisymm hle (by simpa using hfuel)
    refine ⟨now, ?_, le_of_eq hnow.symm, ?_⟩
    · simp [await_reply, hnow]
    · omega
  | succ fuel ih =>
    intro now deadline hle hfuel
    by_cases hd : deadline ≤ now
    · have hnow : now = deadline := Nat.le_antisymm hle hd
      refine ⟨now, ?_, hd, ?_⟩
      · simp [await_reply, hd]
      · omega
    · have hlt : now < deadline := Nat.not_le.mp hd
      by_cases hnext : deadline ≤ now + interval
      · refine ⟨now + interval, ?_, hnext, ?_⟩
        · rw [show fuel + 1 + 1 = (fuel + 1) + 1 from rfl]
          unfold await_reply
          rw [if_neg hd]
          unfold await_reply
          rw [if_pos hnext]
        · omega
      · obtain ⟨t, ht, hx, hy⟩ := ih (now + interval) deadline
          (Nat.le_of_not_lt (fun h => hnext (Nat.le_of_lt h)))
          (by have := hfuel; ring_nf at this ⊢; omega)
        refine ⟨t, ?_, hx, hy⟩
        unfold await_reply
        rw [if_neg hd]
        exact ht

/-- C9: a command dispatched with no reply ever received fails with
`Timeout` at a time `t` no earlier than the configured deadline and no
later than the deadline plus one frame-processing interval, whenever the
frame-processing interval is positive and the wait is given enough checks
to reach the deadline. -/
theorem timeout_determinism (deadline interval fuel : Nat)
    (hI : 0 < interval) (hfuel : deadline ≤ fuel * interval) :
    ∃ t, await_reply (fuel + 1) 0 deadline interval =
        some (CmdOutcome.timeout, t) ∧
      deadline ≤ t ∧ t ≤ deadline + interval :=
  await_reply_fires interval hI fuel 0 deadline (Nat.zero_le deadline)
    (by simpa using hfuel)

/-- Witness for C9: deadline 10, interval 3, five checks — the wait times
out at `t = 12`, between the deadline and the deadline plus one interval. -/
theorem timeout_determinism_witness :
    0 < 3 ∧ 10 ≤ 4 * 3 ∧
    ∃ t, await_reply 5 0 10 3 = some (CmdOutcome.timeout, t) ∧
      10 ≤ t ∧ t ≤ 10 + 3 :=
  ⟨by decide, by decide, timeout_determinism 10 3 4 (by decide) (by decide)⟩
